import Mathlib

/-!
Verification development for the Helix Hub Teams tab application.

The definitions below are a shallow embedding of the TypeScript source:

* `src/api/src/functions/getAttendance.ts` — week-range computation and
  attendance row aggregation;
* `src/api/src/functions/getAnnualLeave.ts` — fiscal-year computation,
  approver routing, leave totals, module-level caching and the HTTP handler;
* the `OutstandingBalancesList` React component — balance filtering and
  due-status computation.

JavaScript `Date` values are modelled at millisecond precision as a day
number since the Unix epoch together with the milliseconds elapsed since
local midnight (`JSDate`).  Calendar dates used at date granularity (SQL
`Date` parameters) are modelled as year/month/day triples with the month
0-indexed exactly as JavaScript's `getMonth` (`SimpleDate`).  JavaScript
numbers are modelled as `Int`/`Rat`, strings as `String`, `null`/`undefined`
via `Option`, and thrown exceptions via `Except`.
-/

/-- A JavaScript `Date`: day number since the epoch plus milliseconds since
midnight of that day.  `setDate`/`setHours` from the source are modelled by
`jsAddDays`/`jsSetHours`. -/
structure JSDate where
  epochDay : Int
  ms : Nat
  deriving DecidableEq, Repr

/-- Milliseconds in one day. -/
def msPerDay : Nat := 86400000

/-- `date.setDate(date.getDate() + k)`: shifts the date by `k` days, keeping
the time of day (JavaScript normalises day-of-month overflow, so the net
effect is adding `k` days). -/
def jsAddDays (d : JSDate) (k : Int) : JSDate :=
  { epochDay := d.epochDay + k, ms := d.ms }

/-- `date.setHours(h, m, s, milli)`: keeps the date, replaces the time of
day. -/
def jsSetHours (d : JSDate) (h m s milli : Nat) : JSDate :=
  { epochDay := d.epochDay, ms := h * 3600000 + m * 60000 + s * 1000 + milli }

/-- `date.getDay()`: 0 = Sunday, 1 = Monday, …, 6 = Saturday.  Day 0 of the
epoch (1970-01-01) was a Thursday, hence the offset 4. -/
def jsGetDay (d : JSDate) : Int := (d.epochDay + 4) % 7

/-- The instant of a `JSDate` in milliseconds since the epoch. -/
def toMs (d : JSDate) : Int := d.epochDay * (msPerDay : Int) + (d.ms : Int)

/-- `getStartOfWeek` from `getAttendance.ts`: move back to Monday (with
Sunday mapped to the preceding Monday) and zero the time of day. -/
def getStartOfWeek (date : JSDate) : JSDate :=
  let day := jsGetDay date
  let diff := (if day = 0 then -6 else 1) - day
  jsSetHours (jsAddDays date diff) 0 0 0 0

/-- `getNextWeekStart` from `getAttendance.ts`. -/
def getNextWeekStart (currentWeekStart : JSDate) : JSDate :=
  jsSetHours (jsAddDays currentWeekStart 7) 0 0 0 0

/-- `getEndOfWeek` from `getAttendance.ts`. -/
def getEndOfWeek (startDate : JSDate) : JSDate :=
  jsSetHours (jsAddDays startDate 6) 23 59 59 999

/-- The previous-week start computed inline in `getAttendanceHandler`:
`new Date(currentWeekStart)` followed by `setDate(getDate() - 7)` (no
`setHours` call, so the time of day is kept). -/
def previousWeekStart (currentWeekStart : JSDate) : JSDate :=
  jsAddDays currentWeekStart (-7)

/-- Civil calendar date (1-based month and day) of an epoch day number,
following the standard Gregorian conversion; used to model
`toLocaleDateString("en-GB")` and the `getFullYear`/`getMonth`/`getDate`
accessors at rendering time. -/
def civilFromDays (z0 : Int) : Int × Int × Int :=
  let z := z0 + 719468
  let era := z / 146097
  let doe := z - era * 146097
  let yoe := (doe - doe / 1460 + doe / 36524 - doe / 146096) / 365
  let y := yoe + era * 400
  let doy := doe - (365 * yoe + yoe / 4 - yoe / 100)
  let mp := (5 * doy + 2) / 153
  let d := doy - (153 * mp + 2) / 5 + 1
  let m := mp + (if mp < 10 then 3 else -9)
  (y + (if m ≤ 2 then 1 else 0), m, d)

/-- Two-digit zero padding, as produced by the `2-digit` locale option and by
`("0" + n).slice(-2)` in `formatDate`. -/
def pad2 (n : Int) : String := ("0" ++ toString n).takeRight 2

/-- Model of `date.toLocaleDateString("en-GB", { day: "2-digit",
month: "2-digit", year: "numeric" })`: the `dd/mm/yyyy` rendering of the
date. -/
def toLocaleDateGB (d : JSDate) : String :=
  let c := civilFromDays d.epochDay
  pad2 c.2.2 ++ "/" ++ pad2 c.2.1 ++ "/" ++ toString c.1

/-- `formatWeekRange` from `getAttendance.ts`. -/
def formatWeekRange (start e : JSDate) : String :=
  "Monday, " ++ toLocaleDateGB start ++ " - Sunday, " ++ toLocaleDateGB e

/-- A calendar date at day granularity, month 0-indexed as in JavaScript's
`getMonth` (0 = January). -/
structure SimpleDate where
  year : Int
  month : Nat
  day : Nat
  deriving DecidableEq, Repr

/-- Day-granularity order on calendar dates (year, then month, then day). -/
def dateLE (a b : SimpleDate) : Bool :=
  decide (a.year < b.year) ||
    (decide (a.year = b.year) &&
      (decide (a.month < b.month) ||
        (decide (a.month = b.month) && decide (a.day ≤ b.day))))

/-- The fiscal-year boundary computation of `queryUserAnnualLeave` in
`getAnnualLeave.ts`: `new Date(y, 3, 1)` is April 1 and `new Date(y, 2, 31)`
is March 31 (months 0-indexed). -/
def fiscalBounds (today : SimpleDate) : SimpleDate × SimpleDate :=
  if today.month < 3 then
    (⟨today.year - 1, 3, 1⟩, ⟨today.year, 2, 31⟩)
  else
    (⟨today.year, 3, 1⟩, ⟨today.year + 1, 2, 31⟩)

/-! ### JavaScript truthiness and nullable-string helpers -/

/-- Truthiness of a nullable/optional JavaScript string: `null`, `undefined`
and the empty string are falsy. -/
def jsTruthyStr (o : Option String) : Bool := decide (o.getD "" ≠ "")

/-- `x || null` on a nullable JavaScript string: `null`, `undefined` and the
empty string become `null`. -/
def jsOrNullStr (o : Option String) : Option String :=
  if o.getD "" = "" then none else o

/-! ### Annual leave data model (`getAnnualLeave.ts`) -/

/-- A raw SQL result row of the `annualLeave` table, after column lookup:
nullable columns are `Option`.  The `start_date`/`end_date` columns carry
calendar dates. -/
structure RawLeaveRow where
  request_id : Int
  person : Option String
  start_date : SimpleDate
  end_date : SimpleDate
  reason : Option String
  status : Option String
  days_taken : Option Rat
  leave_type : Option String
  rejection_notes : Option String
  deriving DecidableEq, Repr

/-- `formatDate` from `getAnnualLeave.ts`: `YYYY-MM-DD` with the month and
day padded by `("0" + n).slice(-2)` (the source month is 0-indexed and gets
`+ 1`). -/
def formatDate (d : SimpleDate) : String :=
  toString d.year ++ "-" ++ pad2 ((d.month : Int) + 1) ++ "-" ++ pad2 (d.day : Int)

/-- The `AnnualLeaveRecord` interface.  `AOW` and `approvers` are optional
fields: the outer `Option` is `none` when the field is absent
(`undefined`, omitted by `JSON.stringify`). -/
structure AnnualLeaveRecord where
  request_id : Int
  person : String
  start_date : String
  end_date : String
  reason : String
  status : String
  days_taken : Rat
  leave_type : Option String
  rejection_notes : Option String
  AOW : Option (Option String) := none
  approvers : Option (List String) := none
  deriving DecidableEq, Repr

/-- The row-to-record mapping used by `queryAnnualLeave`, `queryFutureLeave`
and `queryUserAnnualLeave` (`entry.person || ""`, `entry.days_taken || 0`,
`entry.leave_type || null`, `entry.rejection_notes || null`, dates through
`formatDate`). -/
def rowToRecord (r : RawLeaveRow) : AnnualLeaveRecord :=
  { request_id := r.request_id
    person := r.person.getD ""
    start_date := formatDate r.start_date
    end_date := formatDate r.end_date
    reason := r.reason.getD ""
    status := r.status.getD ""
    days_taken := r.days_taken.getD 0
    leave_type := jsOrNullStr r.leave_type
    rejection_notes := jsOrNullStr r.rejection_notes }

/-- The four mutable totals accumulated in the `requestCompleted` callback
of `queryUserAnnualLeave`. -/
structure LeaveTotalsAcc where
  standard : Rat
  unpaid : Rat
  purchase : Rat
  rejected : Rat
  deriving DecidableEq, Repr

/-- One iteration of the `leaveEntries.forEach` totals loop in
`queryUserAnnualLeave`.  `typeof entry.days_taken === "number"` always holds
for mapped records (the mapping defaults `days_taken` to 0). -/
def totalsStep (t : LeaveTotalsAcc) (e : AnnualLeaveRecord) : LeaveTotalsAcc :=
  if jsTruthyStr e.leave_type then
    let lt := (e.leave_type.getD "").toLower
    let t1 :=
      if lt = "standard" ∧ e.status.toLower = "booked" then
        { t with standard := t.standard + e.days_taken }
      else if lt = "unpaid" then { t with unpaid := t.unpaid + e.days_taken }
      else if lt = "purchase" then { t with purchase := t.purchase + e.days_taken }
      else t
    if e.status.toLower = "rejected" ∧ jsTruthyStr e.rejection_notes then
      { t1 with rejected := t1.rejected + e.days_taken }
    else t1
  else t

/-- The totals loop of `queryUserAnnualLeave`. -/
def computeLeaveTotals (entries : List AnnualLeaveRecord) : LeaveTotalsAcc :=
  entries.foldl totalsStep ⟨0, 0, 0, 0⟩

/-! ### Team AOW map and approver routing -/

/-- A raw SQL row of the `team` table as read by `queryTeamDataFromSQL`. -/
structure TeamRow where
  initials : Option String
  aow : Option String
  deriving DecidableEq, Repr

/-- Insertion into a JavaScript object / `Map`: an existing key is updated
in place, a new key is appended (insertion order preserved). -/
def objInsert {β : Type} (m : List (String × β)) (k : String) (v : β) :
    List (String × β) :=
  match m with
  | [] => [(k, v)]
  | (k0, v0) :: rest =>
    if k0 = k then (k, v) :: rest else (k0, v0) :: objInsert rest k v

/-- The `teamAowMap` built by `queryTeamDataFromSQL`: rows with truthy
initials are `set` into the map with value `aow || null`. -/
def buildAowMap (rows : List TeamRow) : List (String × Option String) :=
  rows.foldl
    (fun m r =>
      if jsTruthyStr r.initials then
        objInsert m (r.initials.getD "") (jsOrNullStr r.aow)
      else m)
    []

/-- `teamAowMap.get(p)`. -/
def aowLookup (m : List (String × Option String)) (p : String) :
    Option (Option String) :=
  List.lookup p m

/-- `teamAowMap.get(p) || ""`. -/
def aowOrEmpty (m : List (String × Option String)) (p : String) : String :=
  ((aowLookup m p).getD none).getD ""

/-- `teamAowMap.get(p) || null`. -/
def aowOrNull (m : List (String × Option String)) (p : String) : Option String :=
  jsOrNullStr ((aowLookup m p).getD none)

/-- `determineApprovers` from `getAnnualLeave.ts`. -/
def determineApprovers (aow : String) : List String :=
  let aowList := (aow.toLower.splitOn ",").map (fun item => item.trim)
  let approver := if aowList.contains "construction" then "JW" else "AC"
  ["LZ", approver]

/-- `enhanceLeaveWithAOWAndApprover` from `getAnnualLeaveHandler`: spread
each entry and add `AOW` (`get(person) || null`) and `approvers`
(`determineApprovers(get(person) || "")`). -/
def enhanceLeaveWithAOWAndApprover (m : List (String × Option String))
    (leaveEntries : List AnnualLeaveRecord) : List AnnualLeaveRecord :=
  leaveEntries.map (fun entry =>
    { entry with
      AOW := some (aowOrNull m entry.person)
      approvers := some (determineApprovers (aowOrEmpty m entry.person)) })

/-- The `totals` object of the `UserDetails` interface (`AOW` is always set
by `queryUserAnnualLeave`, possibly to `null`). -/
structure UserTotals where
  standard : Rat
  unpaid : Rat
  purchase : Rat
  rejected : Rat
  AOW : Option String
  deriving DecidableEq, Repr

/-- The `UserDetails` interface. -/
structure UserDetails where
  leaveEntries : List AnnualLeaveRecord
  totals : UserTotals
  deriving DecidableEq, Repr

/-- The result of `queryUserAnnualLeave`: mapped rows plus the computed
totals; `m` is the team AOW map in `cachedTeamAowMap` at that point. -/
def queryUserAnnualLeaveResult (m : List (String × Option String))
    (initials : String) (rows : List RawLeaveRow) : UserDetails :=
  let leaveEntries := rows.map rowToRecord
  let t := computeLeaveTotals leaveEntries
  { leaveEntries := leaveEntries
    totals := ⟨t.standard, t.unpaid, t.purchase, t.rejected, aowOrNull m initials⟩ }

/-! ### JSON values and response bodies -/

/-- A JSON value, as produced by `JSON.stringify` (object fields keep their
key order; `undefined` fields are omitted before this point). -/
inductive Json where
  | null : Json
  | str : String → Json
  | num : Rat → Json
  | arr : List Json → Json
  | obj : List (String × Json) → Json
  deriving Repr

/-- `null`-or-string JSON encoding. -/
def jsonOfNullableStr (o : Option String) : Json :=
  match o with
  | none => .null
  | some s => .str s

/-- JSON encoding of an `AnnualLeaveRecord` (optional `AOW`/`approvers`
fields appear only when present). -/
def leaveRecordToJson (e : AnnualLeaveRecord) : Json :=
  .obj
    ([("request_id", .num (e.request_id : Rat)), ("person", .str e.person),
      ("start_date", .str e.start_date), ("end_date", .str e.end_date),
      ("reason", .str e.reason), ("status", .str e.status),
      ("days_taken", .num e.days_taken),
      ("leave_type", jsonOfNullableStr e.leave_type),
      ("rejection_notes", jsonOfNullableStr e.rejection_notes)]
      ++ (match e.AOW with
          | none => []
          | some v => [("AOW", jsonOfNullableStr v)])
      ++ (match e.approvers with
          | none => []
          | some l => [("approvers", .arr (l.map Json.str))]))

/-- JSON encoding of the totals object. -/
def userTotalsToJson (t : UserTotals) : Json :=
  .obj [("standard", .num t.standard), ("unpaid", .num t.unpaid),
        ("purchase", .num t.purchase), ("rejected", .num t.rejected),
        ("AOW", jsonOfNullableStr t.AOW)]

/-- JSON encoding of `UserDetails`. -/
def userDetailsToJson (u : UserDetails) : Json :=
  .obj [("leaveEntries", .arr (u.leaveEntries.map leaveRecordToJson)),
        ("totals", userTotalsToJson u.totals)]

/-- The `AnnualLeaveResponse` body `JSON.stringify` produces: exactly the
fields `annual_leave`, `future_leave` and `user_details`. -/
def annualLeaveResponseJson (al fl : List AnnualLeaveRecord)
    (ud : UserDetails) : Json :=
  .obj [("annual_leave", .arr (al.map leaveRecordToJson)),
        ("future_leave", .arr (fl.map leaveRecordToJson)),
        ("user_details", userDetailsToJson ud)]

/-- An HTTP response body: plain text or a JSON document. -/
inductive HttpBody where
  | text : String → HttpBody
  | json : Json → HttpBody
  deriving Repr

/-- An `HttpResponseInit` with the fields the handlers set. -/
structure HttpResponse where
  status : Nat
  body : HttpBody
  deriving Repr

/-! ### The getAnnualLeave handler with its module-level caches -/

/-- The parsed request body: `initials` may be absent. -/
structure ReqBody where
  initials : Option String
  deriving DecidableEq, Repr

/-- The module-level cache variables of `getAnnualLeave.ts`
(`cachedAnnualLeave`, `cachedFutureLeave`, `cachedUserDetails`,
`cachedTeamAowMap`); `none` models `null`. -/
structure CacheState where
  cachedAnnualLeave : Option (List AnnualLeaveRecord)
  cachedFutureLeave : Option (List AnnualLeaveRecord)
  cachedUserDetails : Option UserDetails
  cachedTeamAowMap : Option (List (String × Option String))
  deriving DecidableEq, Repr

/-- The caches at process start. -/
def emptyCache : CacheState := ⟨none, none, none, none⟩

/-- The external world of one invocation: the body-parse outcome, the Key
Vault secret retrieval outcome, and the outcomes of the team query and of
the three leave queries (`Promise.all`); `Except.error` models a rejection
or thrown error. -/
structure AnnualLeaveEnv where
  parsed : Except Unit ReqBody
  secret : Except Unit Unit
  teamRows : Except Unit (List TeamRow)
  leaveRows : Except Unit (List RawLeaveRow × List RawLeaveRow × List RawLeaveRow)
  deriving Repr

/-- One invocation outcome: the caches after the call, the HTTP response,
and whether any Key Vault / SQL access was performed. -/
structure HandlerOutcome where
  cache : CacheState
  resp : HttpResponse
  externalAccess : Bool
  deriving Repr

/-- The plain-text 500 response of `getAnnualLeaveHandler`. -/
def err500AnnualLeave : HttpResponse :=
  ⟨500, .text "An error occurred while processing your request."⟩

/-- Steps 4–8 of `getAnnualLeaveHandler` once the team AOW map `m` is in
hand (and stored in `cachedTeamAowMap`): run the three leave queries,
enhance, cache, respond. -/
def annualLeaveWithTeam (cache : CacheState) (env : AnnualLeaveEnv)
    (initials : String) (m : List (String × Option String)) : HandlerOutcome :=
  match env.leaveRows with
  | .error _ => ⟨cache, err500AnnualLeave, true⟩
  | .ok (aRows, fRows, uRows) =>
    let userDetails := queryUserAnnualLeaveResult m initials uRows
    let enhancedAnnual := enhanceLeaveWithAOWAndApprover m (aRows.map rowToRecord)
    let enhancedFuture := enhanceLeaveWithAOWAndApprover m (fRows.map rowToRecord)
    let enhancedUser : UserDetails :=
      { userDetails with
        totals := { userDetails.totals with AOW := aowOrNull m initials } }
    ⟨{ cachedAnnualLeave := some enhancedAnnual
       cachedFutureLeave := some enhancedFuture
       cachedUserDetails := some enhancedUser
       cachedTeamAowMap := some m },
     ⟨200, .json (annualLeaveResponseJson enhancedAnnual enhancedFuture enhancedUser)⟩,
     true⟩

/-- The `try` block of `getAnnualLeaveHandler`: Key Vault, then the team
AOW map (from cache if present, caching it when fetched), then the leave
queries. -/
def annualLeaveFetch (cache : CacheState) (env : AnnualLeaveEnv)
    (initials : String) : HandlerOutcome :=
  match env.secret with
  | .error _ => ⟨cache, err500AnnualLeave, true⟩
  | .ok _ =>
    match cache.cachedTeamAowMap with
    | some m => annualLeaveWithTeam cache env initials m
    | none =>
      match env.teamRows with
      | .error _ => ⟨cache, err500AnnualLeave, true⟩
      | .ok rows =>
        let m := buildAowMap rows
        annualLeaveWithTeam { cache with cachedTeamAowMap := some m } env initials m

/-- `getAnnualLeaveHandler`: body parsing, `initials` validation, the
module-cache fast path, then the fetch-and-cache path. -/
def getAnnualLeaveHandler (cache : CacheState) (env : AnnualLeaveEnv) :
    HandlerOutcome :=
  match env.parsed with
  | .error _ =>
    ⟨cache, ⟨400, .text "Invalid request body. Ensure it\x27s valid JSON."⟩, false⟩
  | .ok body =>
    if jsTruthyStr body.initials then
      match cache.cachedAnnualLeave, cache.cachedFutureLeave,
          cache.cachedUserDetails, cache.cachedTeamAowMap with
      | some al, some fl, some ud, some _ =>
        ⟨cache, ⟨200, .json (annualLeaveResponseJson al fl ud)⟩, false⟩
      | _, _, _, _ => annualLeaveFetch cache env (body.initials.getD "")
    else
      ⟨cache, ⟨400, .text "Missing \x27initials\x27 in request body."⟩, false⟩

/-! ### Attendance aggregation (`getAttendance.ts`) -/

/-- A raw SQL result row of the attendance query, after column lookup. -/
structure RawAttRow where
  name : Option String
  level : Option String
  current_week : Option String
  current_attendance : Option String
  current_iso : Option Int
  next_week : Option String
  next_attendance : Option String
  next_iso : Option Int
  deriving DecidableEq, Repr

/-- An attendance row after the `|| ""` / `|| 0` defaulting done in the
`row` listener of `queryAttendance`. -/
structure AttRow where
  name : String
  level : String
  currentWeek : String
  currentAttendance : String
  currentISO : Int
  nextWeek : String
  nextAttendance : String
  nextISO : Int
  deriving DecidableEq, Repr

/-- The defaulting applied to each raw row by the `row` listener. -/
def extractAttRow (r : RawAttRow) : AttRow :=
  { name := r.name.getD ""
    level := r.level.getD ""
    currentWeek := r.current_week.getD ""
    currentAttendance := r.current_attendance.getD ""
    currentISO := r.current_iso.getD 0
    nextWeek := r.next_week.getD ""
    nextAttendance := r.next_attendance.getD ""
    nextISO := r.next_iso.getD 0 }

/-- The `WeeklyAttendance` interface. -/
structure WeeklyAttendance where
  iso : Int
  attendance : String
  deriving DecidableEq, Repr

/-- The `PersonAttendance` interface; the `weeks` object is an
insertion-ordered key/value list. -/
structure PersonAttendance where
  name : String
  level : String
  weeks : List (String × WeeklyAttendance)
  deriving DecidableEq, Repr

/-- The two conditional week assignments performed for one row (current
week first, then next week, each only when the week string is non-empty). -/
def applyRowWeeks (p : PersonAttendance) (r : AttRow) : PersonAttendance :=
  let p1 :=
    if r.currentWeek ≠ "" then
      { p with weeks := objInsert p.weeks r.currentWeek ⟨r.currentISO, r.currentAttendance⟩ }
    else p
  if r.nextWeek ≠ "" then
    { p1 with weeks := objInsert p1.weeks r.nextWeek ⟨r.nextISO, r.nextAttendance⟩ }
  else p1

/-- Processing of one row into `attendanceMap`: create the person entry on
first sight (name and level from that row), then apply the week
assignments. -/
def attendanceStep (m : List (String × PersonAttendance)) (r : AttRow) :
    List (String × PersonAttendance) :=
  let p0 :=
    match List.lookup r.name m with
    | some p => p
    | none => ⟨r.name, r.level, []⟩
  objInsert m r.name (applyRowWeeks p0 r)

/-- `queryAttendance` over the received rows: build `attendanceMap`, take
`Object.values`, sort by name (`localeCompare` modelled as code-point
string order). -/
def queryAttendance (rows : List RawAttRow) : List PersonAttendance :=
  let m := (rows.map extractAttRow).foldl attendanceStep []
  (m.map Prod.snd).mergeSort (fun a b => decide (a.name ≤ b.name))

/-- The last value written for week `w` of person `n` over a row sequence:
within one row the next-week assignment happens after the current-week one,
and later rows overwrite earlier ones. -/
def lastWeekWrite (rows : List AttRow) (n w : String) :
    Option WeeklyAttendance :=
  rows.foldl
    (fun acc r =>
      if r.name = n then
        if r.nextWeek = w ∧ w ≠ "" then some ⟨r.nextISO, r.nextAttendance⟩
        else if r.currentWeek = w ∧ w ≠ "" then some ⟨r.currentISO, r.currentAttendance⟩
        else acc
      else acc)
    none

/-- The external world of one `getAttendance` invocation: Key Vault plus
the two SQL queries, collapsed into one outcome; team rows are generic
column-name/value objects. -/
structure AttendanceEnv where
  fetch : Except Unit (List RawAttRow × List (List (String × Json)))
  deriving Repr

/-- JSON encoding of a `WeeklyAttendance`. -/
def weeklyAttendanceToJson (w : WeeklyAttendance) : Json :=
  .obj [("iso", .num (w.iso : Rat)), ("attendance", .str w.attendance)]

/-- JSON encoding of a `PersonAttendance`. -/
def personAttendanceToJson (p : PersonAttendance) : Json :=
  .obj [("name", .str p.name), ("level", .str p.level),
        ("weeks", .obj (p.weeks.map (fun kv => (kv.1, weeklyAttendanceToJson kv.2))))]

/-- `getAttendanceHandler`: any failure is caught and mapped to a plain
500; success returns the two-field JSON body. -/
def getAttendanceHandler (env : AttendanceEnv) : HttpResponse :=
  match env.fetch with
  | .error _ => ⟨500, .text "Error retrieving attendance data."⟩
  | .ok (rows, teamRows) =>
    ⟨200, .json (.obj [("attendance", .arr ((queryAttendance rows).map personAttendanceToJson)),
                       ("team", .arr (teamRows.map Json.obj))])⟩

/-! ### OutstandingBalancesList component -/

/-- The fields of `OutstandingClientBalance` the component's filtering
logic reads. -/
structure OutstandingClientBalance where
  id : Int
  total_outstanding_balance : Rat
  deriving DecidableEq, Repr

/-- What the component renders: either the fallback text or the list of
clients shown. -/
inductive BalancesView where
  | message : String → BalancesView
  | clients : List OutstandingClientBalance → BalancesView
  deriving DecidableEq, Repr

/-- The top-level rendering decision of `OutstandingBalancesList`: filter
to strictly positive balances; when none remain render the fallback text,
otherwise render exactly the filtered clients. -/
def renderOutstandingBalances (balances : List OutstandingClientBalance) :
    BalancesView :=
  let filtered := balances.filter (fun b => decide (0 < b.total_outstanding_balance))
  if filtered.isEmpty then .message "No outstanding balances found."
  else .clients filtered

/-- `computeDueStatus` over instants in milliseconds: `Math.floor` of the
day difference (Euclidean division by a positive constant is the floor). -/
def computeDueStatus (todayMs dueMs : Int) : String :=
  let diffDays := (todayMs - dueMs) / (msPerDay : Int)
  if 0 < diffDays then
    toString diffDays ++ " day" ++ (if 1 < diffDays then "s" else "") ++ " overdue"
  else if diffDays < 0 then
    "Due in " ++ toString diffDays.natAbs ++ " day" ++
      (if 1 < diffDays.natAbs then "s" else "")
  else "Due today"

/-! ### Specification-side predicates used to state the claims -/

/-- Sum of `days_taken` over the entries satisfying `p`, accumulated left to
right as the totals loop does. -/
def leaveDaysSum (p : AnnualLeaveRecord → Bool) (entries : List AnnualLeaveRecord) : Rat :=
  entries.foldl (fun s e => if p e then s + e.days_taken else s) 0

/-- An entry contributes to the `standard` total: non-null leave type equal
to `standard` and status `booked`, both case-insensitively. -/
def contributesStandard (e : AnnualLeaveRecord) : Bool :=
  e.leave_type.isSome && decide ((e.leave_type.getD "").toLower = "standard")
    && decide (e.status.toLower = "booked")

/-- An entry contributes to the `unpaid` total: non-null leave type equal to
`unpaid` (case-insensitively), regardless of status. -/
def contributesUnpaid (e : AnnualLeaveRecord) : Bool :=
  e.leave_type.isSome && decide ((e.leave_type.getD "").toLower = "unpaid")

/-- An entry contributes to the `purchase` total: non-null leave type equal
to `purchase` (case-insensitively), regardless of status. -/
def contributesPurchase (e : AnnualLeaveRecord) : Bool :=
  e.leave_type.isSome && decide ((e.leave_type.getD "").toLower = "purchase")

/-- An entry contributes to the `rejected` total: non-null leave type,
status `rejected` (case-insensitively), and non-null rejection notes. -/
def contributesRejected (e : AnnualLeaveRecord) : Bool :=
  e.leave_type.isSome && decide (e.status.toLower = "rejected")
    && e.rejection_notes.isSome

/-- Week `w` appears for name `n` because some row for that name carried it
as a non-empty current- or next-week string. -/
def GoodWeek (rows : List AttRow) (n w : String) : Prop :=
  ∃ r ∈ rows, r.name = n ∧
    ((r.currentWeek = w ∧ w ≠ "") ∨ (r.nextWeek = w ∧ w ≠ ""))

/-- Invariant of `attendanceMap` while folding over the rows: keys are
distinct, each value's `name` equals its key, and every recorded week comes
from some row of the full sequence. -/
def AttMapInv (rows : List AttRow) (m : List (String × PersonAttendance)) : Prop :=
  (m.map Prod.fst).Nodup ∧
    ∀ kp ∈ m, kp.2.name = kp.1 ∧ ∀ wv ∈ kp.2.weeks, GoodWeek rows kp.1 wv.1

/-- A minimal `UserDetails` value used to instantiate concrete scenarios. -/
def sampleUserDetails : UserDetails := ⟨[], ⟨0, 0, 0, 0, none⟩⟩

/-- A fully populated cache, as left behind by a successful invocation. -/
def sampleFullCache : CacheState := ⟨some [], some [], some sampleUserDetails, some []⟩

/-- An invocation environment whose body carries the given initials and
whose external services would all fail if consulted. -/
def sampleEnv (i : String) : AnnualLeaveEnv :=
  ⟨.ok ⟨some i⟩, .error (), .error (), .error ()⟩

/-- A concrete leave record used to instantiate the approver-enhancement
property. -/
def sampleLeaveRecord : AnnualLeaveRecord :=
  ⟨1, "AB", "2024-04-01", "2024-04-02", "", "Booked", 1, some "standard", none, none, none⟩

/-- A concrete team AOW map. -/
def sampleAowMap : List (String × Option String) := [("AB", some "construction")]

/-- The record produced by enhancing `sampleLeaveRecord` against
`sampleAowMap`. -/
def sampleEnhanced : AnnualLeaveRecord :=
  { sampleLeaveRecord with
    AOW := some (aowOrNull sampleAowMap sampleLeaveRecord.person)
    approvers := some (determineApprovers (aowOrEmpty sampleAowMap sampleLeaveRecord.person)) }

/-- A single concrete attendance result row. -/
def sampleAttRows : List RawAttRow :=
  [⟨some "Bob", some "Fee", some "W1", some "Mon", some 5, none, none, none⟩]

/-- Claim C1: for every input date `d`, `getStartOfWeek d` falls on a Monday
(`getDay = 1`), has time of day 00:00:00.000, is not after `d`, and lies
strictly less than 7 days before `d`. -/
theorem getStartOfWeek_isMonday (d : JSDate) (h : d.ms < msPerDay) :
    jsGetDay (getStartOfWeek d) = 1 ∧
    (getStartOfWeek d).ms = 0 ∧
    toMs (getStartOfWeek d) ≤ toMs d ∧
    toMs d - toMs (getStartOfWeek d) < 7 * (msPerDay : Int) := by
  simp only [getStartOfWeek, jsGetDay, jsAddDays, jsSetHours, toMs, msPerDay] at *
  refine ⟨?_, trivial, ?_, ?_⟩ <;> split <;> omega

theorem getStartOfWeek_isMonday_witness :
    (⟨20000, 7200000⟩ : JSDate).ms < msPerDay ∧
    (jsGetDay (getStartOfWeek ⟨20000, 7200000⟩) = 1 ∧
      (getStartOfWeek ⟨20000, 7200000⟩).ms = 0 ∧
      toMs (getStartOfWeek ⟨20000, 7200000⟩) ≤ toMs ⟨20000, 7200000⟩ ∧
      toMs ⟨20000, 7200000⟩ - toMs (getStartOfWeek ⟨20000, 7200000⟩) <
        7 * (msPerDay : Int)) :=
  ⟨by decide, getStartOfWeek_isMonday ⟨20000, 7200000⟩ (by decide)⟩

/-- Claim C2: the fiscal-year boundaries computed by `queryUserAnnualLeave`
span April 1 – March 31 and contain the invocation date: in January–March
the window is April 1 of the previous year to March 31 of the current year,
otherwise April 1 of the current year to March 31 of the next year, and in
both cases `fiscalStart ≤ today ≤ fiscalEnd` at day granularity. -/
theorem fiscalBounds_correct (today : SimpleDate)
    (hm : today.month ≤ 11) (hd1 : 1 ≤ today.day) (hd2 : today.day ≤ 31) :
    (today.month < 3 →
      (fiscalBounds today).1 = ⟨today.year - 1, 3, 1⟩ ∧
      (fiscalBounds today).2 = ⟨today.year, 2, 31⟩) ∧
    (3 ≤ today.month →
      (fiscalBounds today).1 = ⟨today.year, 3, 1⟩ ∧
      (fiscalBounds today).2 = ⟨today.year + 1, 2, 31⟩) ∧
    ((fiscalBounds today).1.month = 3 ∧ (fiscalBounds today).1.day = 1 ∧
      (fiscalBounds today).2.month = 2 ∧ (fiscalBounds today).2.day = 31 ∧
      (fiscalBounds today).2.year = (fiscalBounds today).1.year + 1) ∧
    dateLE (fiscalBounds today).1 today = true ∧
    dateLE today (fiscalBounds today).2 = true := by
  obtain ⟨y, m, d⟩ := today
  simp only [fiscalBounds, dateLE] at *
  by_cases h : m < 3 <;>
    simp only [h, if_pos, if_neg, not_false_iff, Bool.or_eq_true,
      Bool.and_eq_true, decide_eq_true_eq] <;>
    refine ⟨?_, ?_, ?_, ?_, ?_⟩ <;> simp_all <;> omega

theorem fiscalBounds_correct_witness :
    ((⟨2025, 9, 11⟩ : SimpleDate).month ≤ 11 ∧
      1 ≤ (⟨2025, 9, 11⟩ : SimpleDate).day ∧
      (⟨2025, 9, 11⟩ : SimpleDate).day ≤ 31) ∧
    (dateLE (fiscalBounds ⟨2025, 9, 11⟩).1 ⟨2025, 9, 11⟩ = true ∧
      dateLE (⟨2025, 9, 11⟩ : SimpleDate) (fiscalBounds ⟨2025, 9, 11⟩).2 = true) :=
  ⟨by decide,
    (fiscalBounds_correct ⟨2025, 9, 11⟩ (by decide) (by decide) (by decide)).2.2.2⟩

/-- Claim C7: the computed week ranges are consistent Monday-to-Sunday
spans: `getEndOfWeek start` is exactly 6 days after `start` at 23:59:59.999,
`getNextWeekStart start` is exactly 7 days after `start` at 00:00:00.000,
the previous week start is exactly 7 days before the current week start (at
00:00:00.000, the current week start being a `getStartOfWeek` result), and
`formatWeekRange start e` is the string
`Monday, <start as dd/mm/yyyy> - Sunday, <e as dd/mm/yyyy>`. -/
theorem weekRange_consistent (d start e : JSDate) :
    (getEndOfWeek start).epochDay = start.epochDay + 6 ∧
    (getEndOfWeek start).ms = 86399999 ∧
    (getNextWeekStart start).epochDay = start.epochDay + 7 ∧
    (getNextWeekStart start).ms = 0 ∧
    (previousWeekStart (getStartOfWeek d)).epochDay
      = (getStartOfWeek d).epochDay - 7 ∧
    (previousWeekStart (getStartOfWeek d)).ms = 0 ∧
    formatWeekRange start e
      = "Monday, " ++ toLocaleDateGB start ++ " - Sunday, " ++ toLocaleDateGB e := by
  refine ⟨rfl, rfl, rfl, rfl, ?_, rfl, rfl⟩
  simp only [previousWeekStart, jsAddDays]
  omega

/-- Claim C10: `OutstandingBalancesList` renders the fallback text exactly
when no client has a strictly positive `total_outstanding_balance`, and
otherwise renders exactly the clients with strictly positive balance; and
`computeDueStatus` renders the floored whole-day difference from the due
date to today as `n day(s) overdue` when positive, `Due in n day(s)` when
negative, and `Due today` when zero. -/
theorem outstandingBalances_spec (balances : List OutstandingClientBalance)
    (todayMs dueMs : Int) :
    (renderOutstandingBalances balances = .message "No outstanding balances found."
      ↔ ∀ b ∈ balances, b.total_outstanding_balance ≤ 0) ∧
    ((∃ b ∈ balances, 0 < b.total_outstanding_balance) →
      renderOutstandingBalances balances
        = .clients (balances.filter (fun b => decide (0 < b.total_outstanding_balance)))) ∧
    (0 < (todayMs - dueMs) / (msPerDay : Int) →
      computeDueStatus todayMs dueMs
        = toString ((todayMs - dueMs) / (msPerDay : Int)) ++ " day" ++
            (if 1 < (todayMs - dueMs) / (msPerDay : Int) then "s" else "") ++ " overdue") ∧
    ((todayMs - dueMs) / (msPerDay : Int) < 0 →
      computeDueStatus todayMs dueMs
        = "Due in " ++ toString ((todayMs - dueMs) / (msPerDay : Int)).natAbs ++ " day" ++
            (if 1 < ((todayMs - dueMs) / (msPerDay : Int)).natAbs then "s" else "")) ∧
    ((todayMs - dueMs) / (msPerDay : Int) = 0 →
      computeDueStatus todayMs dueMs = "Due today") := by
  have hfe : balances.filter (fun b => decide (0 < b.total_outstanding_balance)) = []
      ↔ ∀ b ∈ balances, b.total_outstanding_balance ≤ 0 := by
    rw [List.filter_eq_nil_iff]
    simp [not_lt]
  refine ⟨?_, ?_, ?_, ?_, ?_⟩
  · simp only [renderOutstandingBalances]
    split
    · simp_all [List.isEmpty_iff]
    · rename_i hne
      rw [List.isEmpty_iff] at hne
      simp only [reduceCtorEq, false_iff]
      intro hall
      exact hne (hfe.mpr hall)
  · intro ⟨b, hb, hpos⟩
    simp only [renderOutstandingBalances]
    split
    · rename_i hemp
      rw [List.isEmpty_iff, hfe] at hemp
      exact absurd hpos (not_lt.mpr (hemp b hb))
    · rfl
  · intro h
    simp only [computeDueStatus]
    rw [if_pos h]
  · intro h
    simp only [computeDueStatus]
    rw [if_neg (by omega), if_pos h]
  · intro h
    simp only [computeDueStatus]
    rw [if_neg (by omega), if_neg (by omega)]

theorem outstandingBalances_spec_witness :
    ((∃ b ∈ [(⟨1, 0⟩ : OutstandingClientBalance), ⟨2, 5⟩], 0 < b.total_outstanding_balance) ∧
      renderOutstandingBalances [⟨1, 0⟩, ⟨2, 5⟩]
        = .clients ([(⟨1, 0⟩ : OutstandingClientBalance), ⟨2, 5⟩].filter
            (fun b => decide (0 < b.total_outstanding_balance)))) ∧
    ((172800000 - 0) / (msPerDay : Int) = 2 ∧
      computeDueStatus 172800000 0
        = toString ((172800000 - 0 : Int) / (msPerDay : Int)) ++ " day" ++
            (if 1 < (172800000 - 0 : Int) / (msPerDay : Int) then "s" else "") ++ " overdue") :=
  ⟨⟨⟨⟨2, 5⟩, by decide, by decide⟩,
    (outstandingBalances_spec [⟨1, 0⟩, ⟨2, 5⟩] 0 0).2.1 ⟨⟨2, 5⟩, by decide, by decide⟩⟩,
   ⟨by decide, (outstandingBalances_spec [] 172800000 0).2.2.1 (by decide)⟩⟩

/-- Claim C4: `determineApprovers` always returns a two-element list headed
by `LZ`, whose second element is `JW` exactly when the comma-separated,
lowercased and item-trimmed AOW list contains `construction` and `AC`
otherwise; and every entry enhanced by `enhanceLeaveWithAOWAndApprover`
carries `approvers` computed this way from the person's AOW (empty string
when the person is missing from the team map). -/
theorem determineApprovers_spec (aow : String)
    (m : List (String × Option String)) (entries : List AnnualLeaveRecord) :
    (determineApprovers aow).length = 2 ∧
    (determineApprovers aow).head? = some "LZ" ∧
    ((determineApprovers aow)[1]? = some "JW" ↔
      ((aow.toLower.splitOn ",").map (fun item => item.trim)).contains "construction" = true) ∧
    ((determineApprovers aow)[1]? = some "AC" ↔
      ((aow.toLower.splitOn ",").map (fun item => item.trim)).contains "construction" = false) ∧
    (∀ e ∈ enhanceLeaveWithAOWAndApprover m entries,
      e.approvers = some (determineApprovers (aowOrEmpty m e.person)) ∧
      e.AOW = some (aowOrNull m e.person)) := by
  refine ⟨?_, ?_, ?_, ?_, ?_⟩
  · simp only [determineApprovers]
    split <;> rfl
  · simp only [determineApprovers]
    split <;> rfl
  · simp only [determineApprovers]
    split <;> rename_i h <;> simp_all
  · simp only [determineApprovers]
    split <;> rename_i h <;> simp_all
  · intro e he
    simp only [enhanceLeaveWithAOWAndApprover, List.mem_map] at he
    obtain ⟨a, _, rfl⟩ := he
    exact ⟨rfl, rfl⟩

theorem jsTruthyStr_jsOrNullStr (o : Option String) :
    jsTruthyStr (jsOrNullStr o) = (jsOrNullStr o).isSome := by
  cases o with
  | none => rfl
  | some s => by_cases h : s = "" <;> simp [jsTruthyStr, jsOrNullStr, h]

theorem totalsStep_rowToRecord (r : RawLeaveRow) (t : LeaveTotalsAcc) :
    totalsStep t (rowToRecord r) =
      ⟨t.standard + (if contributesStandard (rowToRecord r) then (rowToRecord r).days_taken else 0),
       t.unpaid + (if contributesUnpaid (rowToRecord r) then (rowToRecord r).days_taken else 0),
       t.purchase + (if contributesPurchase (rowToRecord r) then (rowToRecord r).days_taken else 0),
       t.rejected + (if contributesRejected (rowToRecord r) then (rowToRecord r).days_taken else 0)⟩ := by
  obtain ⟨rid, p, sd, ed, rs, st, dt, lt, rn⟩ := r
  simp only [rowToRecord]
  cases lt with
  | none =>
    simp [totalsStep, jsOrNullStr, jsTruthyStr, contributesStandard,
      contributesUnpaid, contributesPurchase, contributesRejected]
  | some s =>
    by_cases hs : s = ""
    · simp [totalsStep, jsOrNullStr, jsTruthyStr, hs, contributesStandard,
        contributesUnpaid, contributesPurchase, contributesRejected]
    · have hlt : jsOrNullStr (some s) = some s := by simp [jsOrNullStr, hs]
      have hts : jsTruthyStr (some s) = true := by simp [jsTruthyStr, hs]
      simp only [hlt, totalsStep, hts, jsTruthyStr_jsOrNullStr,
        contributesStandard, contributesUnpaid, contributesPurchase,
        contributesRejected, Option.isSome_some, Option.getD_some,
        Bool.true_and, Bool.and_eq_true, decide_eq_true_eq, if_true]
      split_ifs <;> simp_all

theorem leaveDaysSum_shift (p : AnnualLeaveRecord → Bool)
    (l : List AnnualLeaveRecord) (s0 : Rat) :
    l.foldl (fun s e => if p e then s + e.days_taken else s) s0
      = s0 + l.foldl (fun s e => if p e then s + e.days_taken else s) 0 := by
  induction l generalizing s0 with
  | nil => simp
  | cons a l ih =>
    simp only [List.foldl_cons]
    rw [ih, ih (if p a then 0 + a.days_taken else 0)]
    split <;> ring

theorem leaveDaysSum_cons (p : AnnualLeaveRecord → Bool)
    (e : AnnualLeaveRecord) (l : List AnnualLeaveRecord) :
    leaveDaysSum p (e :: l) = (if p e then e.days_taken else 0) + leaveDaysSum p l := by
  simp only [leaveDaysSum, List.foldl_cons]
  rw [leaveDaysSum_shift]
  split <;> ring

theorem computeLeaveTotals_foldl (rows : List RawLeaveRow) :
    ∀ t : LeaveTotalsAcc,
      (rows.map rowToRecord).foldl totalsStep t =
        ⟨t.standard + leaveDaysSum contributesStandard (rows.map rowToRecord),
         t.unpaid + leaveDaysSum contributesUnpaid (rows.map rowToRecord),
         t.purchase + leaveDaysSum contributesPurchase (rows.map rowToRecord),
         t.rejected + leaveDaysSum contributesRejected (rows.map rowToRecord)⟩ := by
  induction rows with
  | nil => intro t; simp [leaveDaysSum]
  | cons r rows ih =>
    intro t
    simp only [List.map_cons, List.foldl_cons]
    rw [ih, totalsStep_rowToRecord]
    simp only [leaveDaysSum_cons, LeaveTotalsAcc.mk.injEq]
    refine ⟨by ring, by ring, by ring, by ring⟩

/-- Claim C8: in the totals computed by `queryUserAnnualLeave` over mapped
rows, an entry contributes its `days_taken` to `standard` exactly when its
leave type is `standard` and its status `booked` (case-insensitively), to
`unpaid`/`purchase` exactly when its leave type matches regardless of
status, and to `rejected` exactly when its status is `rejected` and its
rejection notes are non-null; entries with null leave type contribute
nothing, and an entry can contribute to both a type total and `rejected`
(witnessed by a rejected purchase entry counted in both). -/
theorem userTotals_contributions (rows : List RawLeaveRow) :
    (computeLeaveTotals (rows.map rowToRecord)).standard
        = leaveDaysSum contributesStandard (rows.map rowToRecord) ∧
    (computeLeaveTotals (rows.map rowToRecord)).unpaid
        = leaveDaysSum contributesUnpaid (rows.map rowToRecord) ∧
    (computeLeaveTotals (rows.map rowToRecord)).purchase
        = leaveDaysSum contributesPurchase (rows.map rowToRecord) ∧
    (computeLeaveTotals (rows.map rowToRecord)).rejected
        = leaveDaysSum contributesRejected (rows.map rowToRecord) ∧
    computeLeaveTotals
        [rowToRecord ⟨1, some "AB", ⟨2024, 3, 1⟩, ⟨2024, 3, 2⟩, none,
          some "Rejected", some 2, some "Purchase", some "clash"⟩]
      = ⟨0, 0, 2, 2⟩ := by
  have h := computeLeaveTotals_foldl rows ⟨0, 0, 0, 0⟩
  have hP : ("Purchase").toLower = "purchase" := by
    rw [String.toLower, String.map_eq]; decide
  have hR : ("Rejected").toLower = "rejected" := by
    rw [String.toLower, String.map_eq]; decide
  refine ⟨?_, ?_, ?_, ?_, ?_⟩
  · simp only [computeLeaveTotals]; rw [h]; ring
  · simp only [computeLeaveTotals]; rw [h]; ring
  · simp only [computeLeaveTotals]; rw [h]; ring
  · simp only [computeLeaveTotals]; rw [h]; ring
  · simp [computeLeaveTotals, totalsStep, rowToRecord, jsOrNullStr, jsTruthyStr, hP, hR]

theorem annualLeaveFetch_err (cache : CacheState) (env : AnnualLeaveEnv)
    (initials : String)
    (h : env.secret = .error () ∨
      (cache.cachedTeamAowMap = none ∧ env.teamRows = .error ()) ∨
      env.leaveRows = .error ()) :
    (annualLeaveFetch cache env initials).resp = err500AnnualLeave := by
  obtain ⟨p, s, tr, lr⟩ := env
  cases s with
  | error u => simp [annualLeaveFetch]
  | ok u =>
    rcases h with h | ⟨h1, h2⟩ | h
    · simp at h
    · simp only at h2
      subst h2
      simp [annualLeaveFetch, h1]
    · simp only at h
      subst h
      cases hm : cache.cachedTeamAowMap with
      | some m => simp [annualLeaveFetch, hm, annualLeaveWithTeam]
      | none =>
        cases tr with
        | error u2 => simp [annualLeaveFetch, hm]
        | ok rows => simp [annualLeaveFetch, hm, annualLeaveWithTeam]

/-- Claim C3: request errors are caught and mapped to plain-text 400/500
responses: a body that cannot be parsed gives 400 with the invalid-JSON
text, a parsed body without truthy `initials` gives 400 with the
missing-initials text, a thrown error in any later step (Key Vault, team
query when not cached, or the leave queries) gives 500 with the generic
text, and any failure inside `getAttendanceHandler` gives 500 with its
plain-text body. -/
theorem errorResponses (cache : CacheState) (env : AnnualLeaveEnv)
    (aenv : AttendanceEnv) :
    (env.parsed = .error () →
      (getAnnualLeaveHandler cache env).resp =
        ⟨400, .text "Invalid request body. Ensure it\x27s valid JSON."⟩) ∧
    (∀ b, env.parsed = .ok b → jsTruthyStr b.initials = false →
      (getAnnualLeaveHandler cache env).resp =
        ⟨400, .text "Missing \x27initials\x27 in request body."⟩) ∧
    (∀ b, env.parsed = .ok b → jsTruthyStr b.initials = true →
      (cache.cachedAnnualLeave = none ∨ cache.cachedFutureLeave = none ∨
        cache.cachedUserDetails = none ∨ cache.cachedTeamAowMap = none) →
      (env.secret = .error () ∨
        (cache.cachedTeamAowMap = none ∧ env.teamRows = .error ()) ∨
        env.leaveRows = .error ()) →
      (getAnnualLeaveHandler cache env).resp = err500AnnualLeave) ∧
    (aenv.fetch = .error () →
      getAttendanceHandler aenv = ⟨500, .text "Error retrieving attendance data."⟩) := by
  refine ⟨?_, ?_, ?_, ?_⟩
  · intro h
    simp [getAnnualLeaveHandler, h]
  · intro b hb ht
    simp [getAnnualLeaveHandler, hb, ht]
  · intro b hb ht hmiss herr
    obtain ⟨ca, cf, cu, cm⟩ := cache
    simp only at hmiss herr
    cases ca <;> cases cf <;> cases cu <;> cases cm <;>
      simp only [getAnnualLeaveHandler, hb, ht, if_true] <;>
      first
        | exact annualLeaveFetch_err _ _ _ herr
        | simp at hmiss
  · intro h
    simp [getAttendanceHandler, h]

theorem errorResponses_witness :
    ((⟨.error (), .error (), .error (), .error ()⟩ : AnnualLeaveEnv).parsed = .error () ∧
      (getAnnualLeaveHandler emptyCache ⟨.error (), .error (), .error (), .error ()⟩).resp =
        ⟨400, .text "Invalid request body. Ensure it\x27s valid JSON."⟩) ∧
    ((⟨.error ()⟩ : AttendanceEnv).fetch = .error () ∧
      getAttendanceHandler ⟨.error ()⟩ = ⟨500, .text "Error retrieving attendance data."⟩) :=
  ⟨⟨rfl, (errorResponses emptyCache ⟨.error (), .error (), .error (), .error ()⟩ ⟨.error ()⟩).1 rfl⟩,
   ⟨rfl, (errorResponses emptyCache ⟨.error (), .error (), .error (), .error ()⟩ ⟨.error ()⟩).2.2.2 rfl⟩⟩

theorem annualLeaveFetch_200 (cache : CacheState) (env : AnnualLeaveEnv)
    (initials : String)
    (h : (annualLeaveFetch cache env initials).resp.status = 200) :
    ∃ al fl ud m,
      (annualLeaveFetch cache env initials).cache = ⟨some al, some fl, some ud, some m⟩ ∧
      (annualLeaveFetch cache env initials).resp =
        ⟨200, .json (annualLeaveResponseJson al fl ud)⟩ := by
  obtain ⟨p, s, tr, lr⟩ := env
  cases s with
  | error u => simp [annualLeaveFetch, err500AnnualLeave] at h
  | ok u =>
    cases hm : cache.cachedTeamAowMap with
    | some m =>
      cases lr with
      | error u2 =>
        simp [annualLeaveFetch, hm, annualLeaveWithTeam, err500AnnualLeave] at h
      | ok triple =>
        obtain ⟨aR, fR, uR⟩ := triple
        refine ⟨enhanceLeaveWithAOWAndApprover m (aR.map rowToRecord),
          enhanceLeaveWithAOWAndApprover m (fR.map rowToRecord),
          { queryUserAnnualLeaveResult m initials uR with
            totals := { (queryUserAnnualLeaveResult m initials uR).totals with
              AOW := aowOrNull m initials } },
          m, ?_, ?_⟩ <;>
          simp [annualLeaveFetch, hm, annualLeaveWithTeam]
    | none =>
      cases tr with
      | error u2 => simp [annualLeaveFetch, hm, err500AnnualLeave] at h
      | ok rows =>
        cases lr with
        | error u2 =>
          simp [annualLeaveFetch, hm, annualLeaveWithTeam, err500AnnualLeave] at h
        | ok triple =>
          obtain ⟨aR, fR, uR⟩ := triple
          refine ⟨enhanceLeaveWithAOWAndApprover (buildAowMap rows) (aR.map rowToRecord),
            enhanceLeaveWithAOWAndApprover (buildAowMap rows) (fR.map rowToRecord),
            { queryUserAnnualLeaveResult (buildAowMap rows) initials uR with
              totals := { (queryUserAnnualLeaveResult (buildAowMap rows) initials uR).totals with
                AOW := aowOrNull (buildAowMap rows) initials } },
            buildAowMap rows, ?_, ?_⟩ <;>
            simp [annualLeaveFetch, hm, annualLeaveWithTeam]

theorem handler_200_characterize (cache : CacheState) (env : AnnualLeaveEnv)
    (h : (getAnnualLeaveHandler cache env).resp.status = 200) :
    ∃ al fl ud m,
      (getAnnualLeaveHandler cache env).cache = ⟨some al, some fl, some ud, some m⟩ ∧
      (getAnnualLeaveHandler cache env).resp =
        ⟨200, .json (annualLeaveResponseJson al fl ud)⟩ := by
  cases hp : env.parsed with
  | error u =>
    simp [getAnnualLeaveHandler, hp] at h
  | ok b =>
    by_cases ht : jsTruthyStr b.initials = true
    · obtain ⟨ca, cf, cu, cm⟩ := cache
      cases ca <;> cases cf <;> cases cu <;> cases cm <;>
        simp only [getAnnualLeaveHandler, hp, ht, if_true] at h ⊢ <;>
        first
          | exact ⟨_, _, _, _, rfl, rfl⟩
          | exact annualLeaveFetch_200 _ _ _ h
    · simp [getAnnualLeaveHandler, hp, ht] at h

theorem handler_cacheHit (al fl : List AnnualLeaveRecord) (ud : UserDetails)
    (m : List (String × Option String)) (env : AnnualLeaveEnv) (b : ReqBody)
    (hb : env.parsed = .ok b) (ht : jsTruthyStr b.initials = true) :
    getAnnualLeaveHandler ⟨some al, some fl, some ud, some m⟩ env =
      ⟨⟨some al, some fl, some ud, some m⟩,
       ⟨200, .json (annualLeaveResponseJson al fl ud)⟩, false⟩ := by
  simp only [getAnnualLeaveHandler, hb]
  rw [if_pos ht]

/-- Claim C5: once an invocation of `getAnnualLeaveHandler` has succeeded
(status 200) and populated the module caches, every later invocation with
any truthy `initials` returns status 200 with exactly the cached
`annual_leave`, `future_leave` and `user_details`, leaves the caches
untouched and performs no Key Vault or SQL access; in particular two later
invocations with different initials receive identical responses. -/
theorem cacheServesAllUsers (cache : CacheState) (env1 env2 env3 : AnnualLeaveEnv)
    (b2 b3 : ReqBody)
    (h1 : (getAnnualLeaveHandler cache env1).resp.status = 200)
    (h2 : env2.parsed = .ok b2) (ht2 : jsTruthyStr b2.initials = true)
    (h3 : env3.parsed = .ok b3) (ht3 : jsTruthyStr b3.initials = true) :
    ∃ al fl ud,
      (getAnnualLeaveHandler cache env1).cache.cachedAnnualLeave = some al ∧
      (getAnnualLeaveHandler cache env1).cache.cachedFutureLeave = some fl ∧
      (getAnnualLeaveHandler cache env1).cache.cachedUserDetails = some ud ∧
      getAnnualLeaveHandler ((getAnnualLeaveHandler cache env1).cache) env2 =
        ⟨(getAnnualLeaveHandler cache env1).cache,
         ⟨200, .json (annualLeaveResponseJson al fl ud)⟩, false⟩ ∧
      (getAnnualLeaveHandler ((getAnnualLeaveHandler cache env1).cache) env2).resp =
        (getAnnualLeaveHandler ((getAnnualLeaveHandler cache env1).cache) env3).resp := by
  obtain ⟨al, fl, ud, m, hc, _⟩ := handler_200_characterize cache env1 h1
  refine ⟨al, fl, ud, ?_, ?_, ?_, ?_, ?_⟩ <;> rw [hc]
  · exact handler_cacheHit al fl ud m env2 b2 h2 ht2
  · rw [handler_cacheHit al fl ud m env2 b2 h2 ht2,
      handler_cacheHit al fl ud m env3 b3 h3 ht3]

theorem cacheServesAllUsers_witness :
    ((getAnnualLeaveHandler sampleFullCache (sampleEnv "AB")).resp.status = 200 ∧
      (sampleEnv "CD").parsed = .ok ⟨some "CD"⟩ ∧
      jsTruthyStr (some "CD") = true ∧
      (sampleEnv "EF").parsed = .ok ⟨some "EF"⟩ ∧
      jsTruthyStr (some "EF") = true) ∧
    (∃ al fl ud,
      (getAnnualLeaveHandler sampleFullCache (sampleEnv "AB")).cache.cachedAnnualLeave = some al ∧
      (getAnnualLeaveHandler sampleFullCache (sampleEnv "AB")).cache.cachedFutureLeave = some fl ∧
      (getAnnualLeaveHandler sampleFullCache (sampleEnv "AB")).cache.cachedUserDetails = some ud ∧
      getAnnualLeaveHandler ((getAnnualLeaveHandler sampleFullCache (sampleEnv "AB")).cache) (sampleEnv "CD") =
        ⟨(getAnnualLeaveHandler sampleFullCache (sampleEnv "AB")).cache,
         ⟨200, .json (annualLeaveResponseJson al fl ud)⟩, false⟩ ∧
      (getAnnualLeaveHandler ((getAnnualLeaveHandler sampleFullCache (sampleEnv "AB")).cache) (sampleEnv "CD")).resp =
        (getAnnualLeaveHandler ((getAnnualLeaveHandler sampleFullCache (sampleEnv "AB")).cache) (sampleEnv "EF")).resp) :=
  ⟨⟨by decide, rfl, by decide, rfl, by decide⟩,
    cacheServesAllUsers sampleFullCache (sampleEnv "AB") (sampleEnv "CD") (sampleEnv "EF")
      ⟨some "CD"⟩ ⟨some "EF"⟩ (by decide) rfl (by decide) rfl (by decide)⟩

/-- Claim C6: every successful (status 200) response of the two endpoints
has the fixed JSON shape: `getAnnualLeave` returns an object with exactly
the fields `annual_leave`, `future_leave` and `user_details`, and
`getAttendance` returns an object with exactly the fields `attendance` and
`team`. -/
theorem successBodies (cache : CacheState) (env : AnnualLeaveEnv)
    (aenv : AttendanceEnv) :
    ((getAnnualLeaveHandler cache env).resp.status = 200 →
      ∃ a f u, (getAnnualLeaveHandler cache env).resp.body =
        .json (.obj [("annual_leave", a), ("future_leave", f), ("user_details", u)])) ∧
    ((getAttendanceHandler aenv).status = 200 →
      ∃ a t, (getAttendanceHandler aenv).body =
        .json (.obj [("attendance", a), ("team", t)])) := by
  constructor
  · intro h
    obtain ⟨al, fl, ud, m, _, hresp⟩ := handler_200_characterize cache env h
    exact ⟨.arr (al.map leaveRecordToJson), .arr (fl.map leaveRecordToJson),
      userDetailsToJson ud, by simp [hresp, annualLeaveResponseJson]⟩
  · intro h
    cases hf : aenv.fetch with
    | error u => simp [getAttendanceHandler, hf] at h
    | ok pair =>
      obtain ⟨rows, teamRows⟩ := pair
      exact ⟨.arr ((queryAttendance rows).map personAttendanceToJson),
        .arr (teamRows.map Json.obj), by simp [getAttendanceHandler, hf]⟩

theorem successBodies_witness :
    ((getAnnualLeaveHandler sampleFullCache (sampleEnv "AB")).resp.status = 200 ∧
      ∃ a f u, (getAnnualLeaveHandler sampleFullCache (sampleEnv "AB")).resp.body =
        .json (.obj [("annual_leave", a), ("future_leave", f), ("user_details", u)])) ∧
    ((getAttendanceHandler ⟨.ok ([], [])⟩).status = 200 ∧
      ∃ a t, (getAttendanceHandler ⟨.ok ([], [])⟩).body =
        .json (.obj [("attendance", a), ("team", t)])) :=
  ⟨⟨by decide, (successBodies sampleFullCache (sampleEnv "AB") ⟨.ok ([], [])⟩).1 (by decide)⟩,
   ⟨by decide, (successBodies sampleFullCache (sampleEnv "AB") ⟨.ok ([], [])⟩).2 (by decide)⟩⟩

theorem mem_objInsert {β : Type} {m : List (String × β)} {k : String} {v : β}
    {x : String × β} (hx : x ∈ objInsert m k v) : x = (k, v) ∨ x ∈ m := by
  induction m with
  | nil => simpa [objInsert] using hx
  | cons kv rest ih =>
    obtain ⟨k0, v0⟩ := kv
    simp only [objInsert] at hx
    split at hx
    · rcases List.mem_cons.mp hx with h | h
      · exact Or.inl h
      · exact Or.inr (List.mem_cons_of_mem _ h)
    · rcases List.mem_cons.mp hx with h | h
      · exact Or.inr (h ▸ List.mem_cons_self _ _)
      · rcases ih h with h2 | h2
        · exact Or.inl h2
        · exact Or.inr (List.mem_cons_of_mem _ h2)

theorem keys_objInsert {β : Type} (m : List (String × β)) (k : String) (v : β) :
    (objInsert m k v).map Prod.fst =
      if k ∈ m.map Prod.fst then m.map Prod.fst else m.map Prod.fst ++ [k] := by
  induction m with
  | nil => simp [objInsert]
  | cons kv rest ih =>
    obtain ⟨k0, v0⟩ := kv
    simp only [objInsert]
    split
    · rename_i h
      subst h
      simp
    · rename_i h
      by_cases hmem : k ∈ rest.map Prod.fst <;>
        simp [hmem, ih, List.mem_cons, Ne.symm h]

theorem nodupKeys_objInsert {β : Type} {m : List (String × β)} {k : String}
    {v : β} (h : (m.map Prod.fst).Nodup) :
    ((objInsert m k v).map Prod.fst).Nodup := by
  rw [keys_objInsert]
  split
  · exact h
  · rename_i hnot
    simp [List.nodup_append, h, hnot]

theorem lookup_objInsert {β : Type} (m : List (String × β)) (k : String)
    (v : β) (n : String) :
    List.lookup n (objInsert m k v) = if k = n then some v else List.lookup n m := by
  induction m with
  | nil =>
    by_cases h : k = n
    · subst h
      simp [objInsert, List.lookup_cons]
    · simp [objInsert, List.lookup_cons, beq_false_of_ne (fun hc => h hc.symm), h]
  | cons kv rest ih =>
    obtain ⟨k0, v0⟩ := kv
    by_cases h0 : k0 = k
    · subst h0
      by_cases h : k0 = n
      · subst h
        simp [objInsert, List.lookup_cons]
      · simp [objInsert, List.lookup_cons,
          beq_false_of_ne (fun hc => h hc.symm), h]
    · by_cases hn : n = k0
      · subst hn
        have hk : ¬ k = n := fun hc => h0 hc.symm
        simp [objInsert, h0, List.lookup_cons, hk]
      · simp [objInsert, h0, List.lookup_cons, beq_false_of_ne hn, ih]

theorem mem_of_lookup_eq_some {β : Type} {m : List (String × β)} {k : String}
    {v : β} (h : List.lookup k m = some v) : (k, v) ∈ m := by
  induction m with
  | nil => simp at h
  | cons kv rest ih =>
    obtain ⟨k0, v0⟩ := kv
    by_cases hk : k = k0
    · subst hk
      rw [List.lookup_cons, beq_self_eq_true] at h
      have hv : v0 = v := Option.some_inj.mp h
      subst hv
      exact List.mem_cons_self _ _
    · rw [List.lookup_cons, beq_false_of_ne hk] at h
      exact List.mem_cons_of_mem _ (ih h)

theorem lookup_eq_of_mem_nodup {β : Type} {m : List (String × β)} {k : String}
    {v : β} (hmem : (k, v) ∈ m) (hnd : (m.map Prod.fst).Nodup) :
    List.lookup k m = some v := by
  induction m with
  | nil => simp at hmem
  | cons kv rest ih =>
    obtain ⟨k0, v0⟩ := kv
    simp only [List.map_cons, List.nodup_cons] at hnd
    rcases List.mem_cons.mp hmem with h | h
    · cases h
      simp [List.lookup_cons]
    · have hk : ¬ k = k0 := by
        intro hc
        subst hc
        exact hnd.1 (List.mem_map_of_mem Prod.fst h)
      rw [List.lookup_cons, beq_false_of_ne hk]
      exact ih h hnd.2

theorem name_applyRowWeeks (p : PersonAttendance) (r : AttRow) :
    (applyRowWeeks p r).name = p.name := by
  unfold applyRowWeeks
  split_ifs <;> rfl

theorem mem_weeks_applyRowWeeks {p : PersonAttendance} {r : AttRow}
    {wv : String × WeeklyAttendance} (h : wv ∈ (applyRowWeeks p r).weeks) :
    wv ∈ p.weeks ∨ (wv.1 = r.currentWeek ∧ wv.1 ≠ "") ∨
      (wv.1 = r.nextWeek ∧ wv.1 ≠ "") := by
  unfold applyRowWeeks at h
  by_cases h2 : r.nextWeek ≠ "" <;> by_cases h1 : r.currentWeek ≠ ""
  · rw [if_pos h2, if_pos h1] at h
    rcases mem_objInsert h with hx | hx
    · exact Or.inr (Or.inr ⟨by rw [hx], by rw [hx]; exact h2⟩)
    · rcases mem_objInsert hx with hy | hy
      · exact Or.inr (Or.inl ⟨by rw [hy], by rw [hy]; exact h1⟩)
      · exact Or.inl hy
  · rw [if_pos h2, if_neg h1] at h
    rcases mem_objInsert h with hx | hx
    · exact Or.inr (Or.inr ⟨by rw [hx], by rw [hx]; exact h2⟩)
    · exact Or.inl hx
  · rw [if_neg h2, if_pos h1] at h
    rcases mem_objInsert h with hx | hx
    · exact Or.inr (Or.inl ⟨by rw [hx], by rw [hx]; exact h1⟩)
    · exact Or.inl hx
  · rw [if_neg h2, if_neg h1] at h
    exact Or.inl h

theorem attMapInv_step {rows : List AttRow} {m : List (String × PersonAttendance)}
    {r : AttRow} (hr : r ∈ rows) (hinv : AttMapInv rows m) :
    AttMapInv rows (attendanceStep m r) := by
  obtain ⟨hnd, hall⟩ := hinv
  constructor
  · unfold attendanceStep
    exact nodupKeys_objInsert hnd
  · intro kp hkp
    unfold attendanceStep at hkp
    rcases mem_objInsert hkp with h | h
    · subst h
      have hp0 :
          (match List.lookup r.name m with
            | some p => p
            | none => (⟨r.name, r.level, []⟩ : PersonAttendance)).name = r.name ∧
          ∀ wv ∈ (match List.lookup r.name m with
            | some p => p
            | none => (⟨r.name, r.level, []⟩ : PersonAttendance)).weeks,
            GoodWeek rows r.name wv.1 := by
        cases hls : List.lookup r.name m with
        | none => exact ⟨rfl, by intro wv hwv; simp at hwv⟩
        | some p =>
          have hpm : (r.name, p) ∈ m := mem_of_lookup_eq_some hls
          have := hall _ hpm
          exact ⟨this.1, this.2⟩
      constructor
      · simp only [name_applyRowWeeks]
        exact hp0.1
      · intro wv hwv
        rcases mem_weeks_applyRowWeeks hwv with hw | ⟨hc, hne⟩ | ⟨hc, hne⟩
        · exact hp0.2 wv hw
        · exact ⟨r, hr, rfl, Or.inl ⟨hc.symm, hne⟩⟩
        · exact ⟨r, hr, rfl, Or.inr ⟨hc.symm, hne⟩⟩
    · exact hall kp h

theorem attMapInv_foldl {rows : List AttRow} (l : List AttRow)
    (hsub : ∀ r ∈ l, r ∈ rows) :
    ∀ m, AttMapInv rows m → AttMapInv rows (l.foldl attendanceStep m) := by
  induction l with
  | nil => intro m h; exact h
  | cons r l ih =>
    intro m h
    exact ih (fun x hx => hsub x (List.mem_cons_of_mem _ hx)) _
      (attMapInv_step (hsub r (List.mem_cons_self _ _)) h)

theorem lookup_attendanceStep (m : List (String × PersonAttendance))
    (r : AttRow) (n : String) :
    List.lookup n (attendanceStep m r) =
      if r.name = n then
        some (applyRowWeeks ((List.lookup n m).getD ⟨r.name, r.level, []⟩) r)
      else List.lookup n m := by
  unfold attendanceStep
  rw [lookup_objInsert]
  by_cases h : r.name = n
  · subst h
    cases hls : List.lookup r.name m <;> simp [hls]
  · simp [h]

theorem lookup_foldl_attendance (l : List AttRow) (n : String) :
    ∀ m, List.lookup n (l.foldl attendanceStep m) =
      l.foldl
        (fun acc r =>
          if r.name = n then
            some (applyRowWeeks (acc.getD ⟨r.name, r.level, []⟩) r)
          else acc)
        (List.lookup n m) := by
  induction l with
  | nil => intro m; rfl
  | cons r l ih =>
    intro m
    simp only [List.foldl_cons]
    rw [ih (attendanceStep m r), lookup_attendanceStep]

theorem lookup_weeks_applyRowWeeks (p : PersonAttendance) (r : AttRow)
    (w : String) :
    List.lookup w (applyRowWeeks p r).weeks =
      if r.nextWeek = w ∧ w ≠ "" then some ⟨r.nextISO, r.nextAttendance⟩
      else if r.currentWeek = w ∧ w ≠ "" then some ⟨r.currentISO, r.currentAttendance⟩
      else List.lookup w p.weeks := by
  unfold applyRowWeeks
  by_cases h2 : r.nextWeek ≠ "" <;> by_cases h1 : r.currentWeek ≠ ""
  · rw [if_pos h2, if_pos h1]
    show List.lookup w (objInsert (objInsert p.weeks r.currentWeek _) r.nextWeek _) = _
    rw [lookup_objInsert, lookup_objInsert]
    split_ifs <;> simp_all
  · rw [if_pos h2, if_neg h1]
    show List.lookup w (objInsert p.weeks r.nextWeek _) = _
    rw [lookup_objInsert]
    split_ifs <;> simp_all
  · rw [if_neg h2, if_pos h1]
    show List.lookup w (objInsert p.weeks r.currentWeek _) = _
    rw [lookup_objInsert]
    split_ifs <;> simp_all
  · rw [if_neg h2, if_neg h1]
    split_ifs <;> simp_all

theorem weeks_lookup_foldl (l : List AttRow) (n w : String) :
    ∀ o : Option PersonAttendance,
      (l.foldl
          (fun acc r =>
            if r.name = n then
              some (applyRowWeeks (acc.getD ⟨r.name, r.level, []⟩) r)
            else acc)
          o).elim none (fun p => List.lookup w p.weeks)
        = l.foldl
            (fun acc r =>
              if r.name = n then
                if r.nextWeek = w ∧ w ≠ "" then some ⟨r.nextISO, r.nextAttendance⟩
                else if r.currentWeek = w ∧ w ≠ "" then some ⟨r.currentISO, r.currentAttendance⟩
                else acc
              else acc)
            (o.elim none (fun p => List.lookup w p.weeks)) := by
  induction l with
  | nil => intro o; rfl
  | cons r l ih =>
    intro o
    simp only [List.foldl_cons]
    rw [ih]
    congr 1
    by_cases h : r.name = n
    · rw [if_pos h, if_pos h]
      show List.lookup w (applyRowWeeks (o.getD ⟨r.name, r.level, []⟩) r).weeks = _
      rw [lookup_weeks_applyRowWeeks]
      cases o <;> simp
    · rw [if_neg h, if_neg h]

/-- Claim C9: for every sequence of result rows, `queryAttendance` returns
at most one element per distinct name, sorted ascending by name
(`localeCompare` modelled as string order), each element's weeks map only
holds week ranges some row for that name carried as a non-empty week
string, and the stored value for a week is the last write performed while
scanning the rows in order (within a row the next-week assignment follows
the current-week one). -/
theorem queryAttendance_invariants (rows : List RawAttRow) :
    ((queryAttendance rows).map (fun p => p.name)).Nodup ∧
    List.Pairwise (fun a b => a.name ≤ b.name) (queryAttendance rows) ∧
    (∀ p ∈ queryAttendance rows, ∀ wv ∈ p.weeks,
      ∃ r ∈ rows.map extractAttRow, r.name = p.name ∧
        ((r.currentWeek = wv.1 ∧ wv.1 ≠ "") ∨ (r.nextWeek = wv.1 ∧ wv.1 ≠ ""))) ∧
    (∀ p ∈ queryAttendance rows, ∀ w,
      List.lookup w p.weeks = lastWeekWrite (rows.map extractAttRow) p.name w) := by
  have hinv : AttMapInv (rows.map extractAttRow)
      ((rows.map extractAttRow).foldl attendanceStep []) :=
    attMapInv_foldl _ (fun r hr => hr) []
      ⟨List.nodup_nil, by intro kp h; simp at h⟩
  have hperm : (queryAttendance rows).Perm
      (((rows.map extractAttRow).foldl attendanceStep []).map Prod.snd) :=
    List.mergeSort_perm _ _
  have hnames : (((rows.map extractAttRow).foldl attendanceStep []).map Prod.snd).map
        (fun p => p.name)
      = ((rows.map extractAttRow).foldl attendanceStep []).map Prod.fst := by
    rw [List.map_map]
    exact List.map_congr_left (fun kp hkp => (hinv.2 kp hkp).1)
  refine ⟨?_, ?_, ?_, ?_⟩
  · have h1 : ((((rows.map extractAttRow).foldl attendanceStep []).map Prod.snd).map
        (fun p => p.name)).Nodup := by
      rw [hnames]; exact hinv.1
    exact ((hperm.map (fun p => p.name)).symm.nodup h1)
  · have hs := @List.sorted_mergeSort PersonAttendance
      (fun a b => decide (a.name ≤ b.name))
      (fun a b c hab hbc => by
        simp only [decide_eq_true_eq] at *
        exact le_trans hab hbc)
      (fun a b => by
        rcases le_total a.name b.name with h | h <;> simp [h])
      (((rows.map extractAttRow).foldl attendanceStep []).map Prod.snd)
    exact hs.imp (by intro a b hab; simpa using hab)
  · intro p hp wv hwv
    have hpv := (List.Perm.mem_iff hperm).mp hp
    obtain ⟨⟨k1, p1⟩, hkp, hkp2⟩ := List.mem_map.mp hpv
    have h2 := hinv.2 _ hkp
    simp only at h2 hkp2
    subst hkp2
    obtain ⟨r, hr, hrn, hcase⟩ := h2.2 wv hwv
    exact ⟨r, hr, by rw [hrn, ← h2.1], hcase⟩
  · intro p hp w
    have hpv := (List.Perm.mem_iff hperm).mp hp
    obtain ⟨⟨k1, p1⟩, hkp, hkp2⟩ := List.mem_map.mp hpv
    have hname := (hinv.2 _ hkp).1
    simp only at hname hkp2
    rw [hkp2] at hname
    rw [← hname, hkp2] at hkp
    have hlk : List.lookup p.name
        ((rows.map extractAttRow).foldl attendanceStep []) = some p :=
      lookup_eq_of_mem_nodup hkp hinv.1
    have h10 := lookup_foldl_attendance (rows.map extractAttRow) p.name []
    rw [hlk, List.lookup_nil] at h10
    have h12 := weeks_lookup_foldl (rows.map extractAttRow) p.name w none
    rw [← h10] at h12
    exact h12

theorem determineApprovers_spec_witness :
    sampleEnhanced ∈ enhanceLeaveWithAOWAndApprover sampleAowMap [sampleLeaveRecord] ∧
    sampleEnhanced.approvers
      = some (determineApprovers (aowOrEmpty sampleAowMap sampleEnhanced.person)) ∧
    sampleEnhanced.AOW = some (aowOrNull sampleAowMap sampleEnhanced.person) :=
  ⟨List.mem_singleton_self _,
   ((determineApprovers_spec "" sampleAowMap [sampleLeaveRecord]).2.2.2.2
      sampleEnhanced (List.mem_singleton_self _)).1,
   ((determineApprovers_spec "" sampleAowMap [sampleLeaveRecord]).2.2.2.2
      sampleEnhanced (List.mem_singleton_self _)).2⟩

theorem queryAttendance_invariants_witness :
    (⟨"Bob", "Fee", [("W1", ⟨5, "Mon"⟩)]⟩ : PersonAttendance) ∈ queryAttendance sampleAttRows ∧
    List.lookup "W1" (⟨"Bob", "Fee", [("W1", ⟨5, "Mon"⟩)]⟩ : PersonAttendance).weeks
      = lastWeekWrite (sampleAttRows.map extractAttRow)
          (⟨"Bob", "Fee", [("W1", ⟨5, "Mon"⟩)]⟩ : PersonAttendance).name "W1" :=
  have hm : (⟨"Bob", "Fee", [("W1", ⟨5, "Mon"⟩)]⟩ : PersonAttendance) ∈ queryAttendance sampleAttRows :=
    List.mem_mergeSort.mpr (by decide)
  ⟨hm, (queryAttendance_invariants sampleAttRows).2.2.2 _ hm "W1"⟩
